import Mathlib

/-!
Verification of the QuantTrade portfolio execution / position-lifecycle
simulators against their natural-language specification.

The development shallowly embeds the relevant parts of three programs:

* `Swap`  — `src/quanttrade/models_2.0/backtest_midas_swap.py`, the
  T+1 swap backtest (pending orders, stop-loss scan, equity snapshot,
  time-exit / swap scheduling, entry scheduling).
* `Live`  — `src/quanttrade/models_2.0/live_portfolio_manager.py`, the
  live portfolio manager (pending-buy execution, stop / time-exit scan).
* `TB`    — `src/quanttrade/models_2.0/backtest_triple_barier.py`, the
  long-only triple-barrier backtest (regime filter).

Prices and cash are modelled as exact rationals (`ℚ`); Python's float
arithmetic is treated as real arithmetic, the usual convention for this
kind of embedding.  Python `int(x)` (truncation toward zero) is modelled
by `pyInt`.  Trading days are indexed by naturals in chronological
order, mirroring the sorted unique date axis of the scripts.
-/

/-- Python `int(x)` applied to a rational: truncation toward zero. -/
def pyInt (q : ℚ) : ℤ :=
  if q < 0 then -(Int.ofNat ((-q).num.toNat / (-q).den))
  else Int.ofNat (q.num.toNat / q.den)

/-- A market bar for one symbol on one day: `price_open`, `price_low`,
`price_high`, `price_close` and the model score column. -/
structure Bar where
  op : ℚ
  lo : ℚ
  hi : ℚ
  cl : ℚ
  score : ℚ
deriving DecidableEq

/-- One day's data: the day's rows keyed by symbol (the scripts build
`day = grouped.get_group(dt).set_index(SYMBOL_COL)`). -/
abbrev DayData := List (String × Bar)

namespace Swap

/-! Embedding of `backtest_midas_swap.py`. -/

def HORIZON_DAYS : ℕ := 20
def STOP_LOSS_PCT : ℚ := -(5/100)
def MAX_POSITIONS : ℕ := 5
def SWAP_LIMIT : ℕ := 2
def SWAP_GAP : ℚ := 5/100
def INITIAL_CAPITAL : ℚ := 100000
def COMMISSION : ℚ := 2/1000
def SLIPPAGE_BUY : ℚ := 1/100
def SLIPPAGE_SELL : ℚ := 5/1000
def TOP_K : ℕ := 5

/-- An open position, as kept in the `portfolio` list of dicts. -/
structure Position where
  symbol : String
  entryDate : ℕ
  entryPrice : ℚ
  shares : ℕ
  daysHeld : ℕ
deriving DecidableEq

/-- A pending order (`pending_orders` list of dicts).  SELL orders carry
`capital = 0`, mirroring the absent key. -/
inductive Side
  | buy
  | sell
deriving DecidableEq

structure Order where
  side : Side
  symbol : String
  target : ℕ
  capital : ℚ
  reason : String
deriving DecidableEq

/-- A row of `trade_log`. -/
structure Trade where
  entryDate : ℕ
  exitDate : Option ℕ
  symbol : String
  entryPrice : ℚ
  exitPrice : Option ℚ
  shares : ℕ
  ret : Option ℚ
  reason : String
  daysHeld : ℕ
deriving DecidableEq

/-- The simulator state threaded through the day loop. -/
structure State where
  cash : ℚ
  portfolio : List Position
  pending : List Order
  equity : List (ℕ × ℚ)
  trades : List Trade
deriving DecidableEq

/-- `compute_stop_loss` (lines 90-109): returns the raw exit price if the
stop triggers today, `none` otherwise.  The reason is always
`STOP_LOSS`. -/
def compute_stop_loss (entry_price : ℚ) (row : Bar) : Option ℚ :=
  let stop_level := entry_price * (1 + STOP_LOSS_PCT)
  if row.lo ≤ stop_level then
    some (if row.op ≤ stop_level then row.op else stop_level)
  else none

/-- First position of the given symbol (the `for idx_p, p in
enumerate(portfolio)` search). -/
def findPos (portfolio : List Position) (sym : String) : Option Position :=
  portfolio.find? (fun p => p.symbol == sym)

/-- Remove the first position of the given symbol (`portfolio.pop(pos_idx)`). -/
def removePos : List Position → String → List Position
  | [], _ => []
  | p :: ps, sym => if p.symbol == sym then ps else p :: removePos ps sym

/-- Accumulator for the pending-order pass (step 1 of the day loop). -/
structure ExecSt where
  cash : ℚ
  portfolio : List Position
  newPending : List Order
  trades : List Trade
deriving DecidableEq

/-- Processing of a single pending order (lines 170-253).  Orders not
dated today, or dated today with no bar for the symbol, are kept in
`new_pending`; a SELL with no matching position is dropped silently; a
BUY with zero computed shares or insufficient cash is dropped silently. -/
def execOrder (dt : ℕ) (day : DayData) (s : ExecSt) (o : Order) : ExecSt :=
  if o.target ≠ dt then { s with newPending := s.newPending ++ [o] } else
  match day.lookup o.symbol with
  | none => { s with newPending := s.newPending ++ [o] }
  | some bar =>
    match o.side with
    | Side.sell =>
      match findPos s.portfolio o.symbol with
      | none => s
      | some pos =>
        let exit_gross := bar.op * (1 - SLIPPAGE_SELL)
        let revenue := (pos.shares : ℚ) * exit_gross
        let net_revenue := revenue * (1 - COMMISSION)
        { s with
          cash := s.cash + net_revenue
          portfolio := removePos s.portfolio o.symbol
          trades := s.trades ++ [{
            entryDate := pos.entryDate, exitDate := some dt, symbol := o.symbol,
            entryPrice := pos.entryPrice, exitPrice := some exit_gross,
            shares := pos.shares, ret := some (exit_gross / pos.entryPrice - 1),
            reason := o.reason, daysHeld := pos.daysHeld }] }
    | Side.buy =>
      let entry_gross := bar.op * (1 + SLIPPAGE_BUY)
      let shares := (pyInt (o.capital / entry_gross)).toNat
      if shares = 0 then s else
      let cost := (shares : ℚ) * entry_gross
      let net_cost := cost * (1 + COMMISSION)
      if s.cash < net_cost then s else
      { s with
        cash := s.cash - net_cost
        portfolio := s.portfolio ++ [{ symbol := o.symbol, entryDate := dt,
                                       entryPrice := entry_gross, shares := shares,
                                       daysHeld := 0 }]
        trades := s.trades ++ [{ entryDate := dt, exitDate := none,
                                 symbol := o.symbol, entryPrice := entry_gross,
                                 exitPrice := none, shares := shares, ret := none,
                                 reason := o.reason, daysHeld := 0 }] }

def execOrders (dt : ℕ) (day : DayData) : List Order → ExecSt → ExecSt
  | [], s => s
  | o :: rest, s => execOrders dt day rest (execOrder dt day s o)

/-- Stop-loss scan (lines 261-297).  The Python loop walks the portfolio
from the last index to the first, popping stopped positions, so trades
of later positions are logged before earlier ones; survivors keep their
order and get `days_held += 1`.  Returns (surviving portfolio, stop
trades, cash credited). -/
def stopScan (dt : ℕ) (day : DayData) : List Position → List Position × List Trade × ℚ
  | [] => ([], [], 0)
  | p :: rest =>
    let r := stopScan dt day rest
    match day.lookup p.symbol with
    | none => ({ p with daysHeld := p.daysHeld + 1 } :: r.1, r.2.1, r.2.2)
    | some bar =>
      match compute_stop_loss p.entryPrice bar with
      | none => ({ p with daysHeld := p.daysHeld + 1 } :: r.1, r.2.1, r.2.2)
      | some exit_raw =>
        let exit_gross := exit_raw * (1 - SLIPPAGE_SELL)
        let net_revenue := (p.shares : ℚ) * exit_gross * (1 - COMMISSION)
        (r.1,
         r.2.1 ++ [{ entryDate := p.entryDate, exitDate := some dt,
                     symbol := p.symbol, entryPrice := p.entryPrice,
                     exitPrice := some exit_gross, shares := p.shares,
                     ret := some (exit_gross / p.entryPrice - 1),
                     reason := "STOP_LOSS", daysHeld := p.daysHeld }],
         r.2.2 + net_revenue)

/-- Mark-to-market of the portfolio (lines 303-310): today's close if the
symbol has a bar today, otherwise the position's entry price. -/
def portValue (day : DayData) (portfolio : List Position) : ℚ :=
  (portfolio.map (fun p => (p.shares : ℚ) *
    (match day.lookup p.symbol with
     | some bar => bar.cl
     | none => p.entryPrice))).sum

/-- `day_sorted = day.sort_values("score", ascending=False)` (line 325).
Modelled with a stable sort by non-increasing score; the pandas sort
order among equal scores is unspecified, so tie order is a modelling
choice. -/
def day_sorted (day : DayData) : DayData :=
  List.insertionSort (fun a b => b.2.score ≤ a.2.score) day

/-- `pos_scores` (lines 328-337): each open position paired with its
score today (`-999` when the symbol has no bar), sorted ascending
(worst first; Python list sort is stable, as is this one). -/
def posScores (day : DayData) (portfolio : List Position) : List (Position × ℚ) :=
  List.insertionSort (fun a b => a.2 ≤ b.2)
    (portfolio.map (fun p => (p,
      match day.lookup p.symbol with
      | some bar => bar.score
      | none => -999)))

/-- `best_candidates` (lines 341-346): the top `TOP_K` rows of the
sorted day, held symbols removed. -/
def bestCandidates (day : DayData) (held : List String) : List (String × ℚ) :=
  ((day_sorted day).take TOP_K).filterMap
    (fun p => if p.1 ∈ held then none else some (p.1, p.2.score))

/-- `time_exit_symbols` (lines 353-360), in portfolio order, each symbol
at most once. -/
def timeExitSyms (portfolio : List Position) : List String :=
  portfolio.foldl
    (fun acc p =>
      if HORIZON_DAYS ≤ p.daysHeld ∧ p.symbol ∉ acc then acc ++ [p.symbol]
      else acc) []

/-- The pair-selection loop (lines 364-387): the k-th entry of
`pos_scores` is matched with the k-th entry of `best_candidates` for
`k < min(SWAP_LIMIT, len(pos_scores), len(best_candidates))`; an index
is skipped (consuming both entries) when the score gap is below
`SWAP_GAP`, a symbol was already used, or the position is already
scheduled for TIME_EXIT. -/
def planSwapsAux (timeExit : List String) :
    List ((Position × ℚ) × (String × ℚ)) → List String → List String →
    List (Position × String)
  | [], _, _ => []
  | ((w, ws), (b, bs)) :: rest, usedW, usedB =>
    if bs - ws < SWAP_GAP then planSwapsAux timeExit rest usedW usedB
    else if w.symbol ∈ usedW then planSwapsAux timeExit rest usedW usedB
    else if b ∈ usedB then planSwapsAux timeExit rest usedW usedB
    else if w.symbol ∈ timeExit then planSwapsAux timeExit rest usedW usedB
    else (w, b) :: planSwapsAux timeExit rest (usedW ++ [w.symbol]) (usedB ++ [b])

def planSwaps (timeExit : List String) (ps : List (Position × ℚ))
    (best : List (String × ℚ)) : List (Position × String) :=
  planSwapsAux timeExit ((ps.zip best).take SWAP_LIMIT) [] []

/-- Lines 390-395: swap SELL symbols are appended to the sell set unless
already marked (by TIME_EXIT). -/
def addSwapSells (pairs : List (Position × String)) (sells : List String) :
    List String :=
  match pairs with
  | [] => sells
  | (w, _) :: rest =>
    if w.symbol ∈ sells then addSwapSells rest sells
    else addSwapSells rest (sells ++ [w.symbol])

/-- Lines 398-404: one SELL order per symbol in the sell set, reason
`TIME_EXIT` if the symbol is in the time-exit set, else `SWAP`. -/
def sellOrders (next : ℕ) (timeExit sells : List String) : List Order :=
  sells.map (fun sym =>
    { side := Side.sell, symbol := sym, target := next, capital := 0,
      reason := if sym ∈ timeExit then "TIME_EXIT" else "SWAP" })

/-- Lines 407-422: one BUY order per swap pair, capital estimated from
the sold position's value at today's close (entry price if no bar). -/
def swapBuyOrders (next : ℕ) (day : DayData) (pairs : List (Position × String)) :
    List Order :=
  pairs.map (fun q =>
    let est := (q.1.shares : ℚ) *
      (match day.lookup q.1.symbol with
       | some bar => bar.cl
       | none => q.1.entryPrice)
    { side := Side.buy, symbol := q.2, target := next, capital := est,
      reason := "SWAP_ENTRY" })

/-- Lines 428-430: tomorrow's expected position count ignores swap
sells (replaced 1:1) and subtracts time exits. -/
def freeSlots (portfolio : List Position) (timeExit : List String) : ℕ :=
  MAX_POSITIONS - (portfolio.length - timeExit.length)

/-- Lines 438-458: new ENTRY orders for the best non-blocked symbols,
cash split equally over the free slots. -/
def entryOrders (next : ℕ) (cash : ℚ) (day : DayData) (blocked : List String)
    (slots : ℕ) : List Order :=
  if slots = 0 then [] else
  ((((day_sorted day).map Prod.fst).filter (fun sym => sym ∉ blocked)).take
      slots).map
    (fun sym =>
      { side := Side.buy, symbol := sym, target := next,
        capital := cash / (slots : ℚ), reason := "ENTRY" })

/-- Steps 4 and 5 of the day loop (lines 322-458): the orders scheduled
this evening for the next trading day. -/
def schedule (next : ℕ) (day : DayData) (cash : ℚ)
    (portfolio : List Position) : List Order :=
  let held := portfolio.map Position.symbol
  let ps := posScores day portfolio
  let best := bestCandidates day held
  let timeExit := timeExitSyms portfolio
  let pairs := planSwaps timeExit ps best
  let sells := addSwapSells pairs timeExit
  let blocked := held ++ pairs.map Prod.snd
  sellOrders next timeExit sells ++ swapBuyOrders next day pairs ++
    entryOrders next cash day blocked (freeSlots portfolio timeExit)

/-- One simulated day (the body of the `for i, dt in enumerate(dates)`
loop): fill pending orders, stop-loss scan, equity snapshot, and —
unless this is the last day — schedule tomorrow's orders. -/
def dayStep (dt : ℕ) (next : Option ℕ) (day : DayData) (s : State) : State :=
  let e := execOrders dt day s.pending
    { cash := s.cash, portfolio := s.portfolio, newPending := [],
      trades := s.trades }
  let r := stopScan dt day e.portfolio
  let cash2 := e.cash + r.2.2
  let eq := s.equity ++ [(dt, cash2 + portValue day r.1)]
  match next with
  | none =>
    { cash := cash2, portfolio := r.1, pending := e.newPending, equity := eq,
      trades := e.trades ++ r.2.1 }
  | some nx =>
    { cash := cash2, portfolio := r.1,
      pending := e.newPending ++ schedule nx day cash2 r.1, equity := eq,
      trades := e.trades ++ r.2.1 }

def initState : State :=
  { cash := INITIAL_CAPITAL, portfolio := [], pending := [], equity := [],
    trades := [] }

def runAux : ℕ → List DayData → State → State
  | _, [], s => s
  | dt, day :: rest, s =>
    runAux (dt + 1) rest
      (dayStep dt (if rest.isEmpty then none else some (dt + 1)) day s)

/-- The whole backtest over a chronological list of daily tables. -/
def run (days : List DayData) : State := runAux 0 days initState

end Swap

namespace Live

/-! Embedding of the per-day simulation of `live_portfolio_manager.py`
(sections 1.a and 1.b of its main loop).  Positions reuse
`Swap.Position`; fills here carry no slippage and the ledgered exit
price is the raw fill price. -/

def HORIZON_DAYS : ℕ := 20
def STOP_LOSS_PCT : ℚ := -(5/100)
def MAX_POSITIONS : ℕ := 5
def INITIAL_CAPITAL : ℚ := 15000
def COMMISSION : ℚ := 2/1000

/-- A `pending_buys` entry. -/
structure Pending where
  symbol : String
  planned_capital : ℚ
  decision_date : ℕ
deriving DecidableEq

/-- `compute_stop_exit` (lines 111-136): gap stop at the open if the
open is at or below the stop level, else intraday stop at the stop
level if the low reached it. -/
def compute_stop_exit (entry_price stop_pct : ℚ) (row : Bar) : Option ℚ :=
  let stop_level := entry_price * (1 + stop_pct)
  if row.op ≤ stop_level then some row.op
  else if row.lo ≤ stop_level then some stop_level
  else none

/-- Accumulator for the pending-buy pass (lines 196-244). -/
structure BuySt where
  cash : ℚ
  positions : List Swap.Position
  newPending : List Pending
  trades : List Swap.Trade
deriving DecidableEq

/-- Processing of a single pending BUY: no bar → keep pending; zero
shares → drop; insufficient cash → keep pending (re-defer); else fill
at today's open (no slippage). -/
def execBuy (dt : ℕ) (day : DayData) (s : BuySt) (o : Pending) : BuySt :=
  match day.lookup o.symbol with
  | none => { s with newPending := s.newPending ++ [o] }
  | some bar =>
    let shares := (pyInt (o.planned_capital / bar.op)).toNat
    if shares = 0 then s else
    let cost := (shares : ℚ) * bar.op
    let comm := cost * COMMISSION
    let total_cost := cost + comm
    if s.cash < total_cost then { s with newPending := s.newPending ++ [o] } else
    { cash := s.cash - total_cost,
      positions := s.positions ++ [{ symbol := o.symbol, entryDate := dt,
                                     entryPrice := bar.op, shares := shares,
                                     daysHeld := 0 }],
      newPending := s.newPending,
      trades := s.trades ++ [{ entryDate := dt, exitDate := none,
                               symbol := o.symbol, entryPrice := bar.op,
                               exitPrice := none, shares := shares, ret := none,
                               reason := "ENTRY", daysHeld := 0 }] }

def execBuys (dt : ℕ) (day : DayData) : List Pending → BuySt → BuySt
  | [], s => s
  | o :: rest, s => execBuys dt day rest (execBuy dt day s o)

/-- Stop / time-exit pass over the positions (lines 247-292), walking
from the last index to the first as in the source.  A position with a
bar today exits at the stop price if the stop triggered, otherwise —
when `days_held ≥ HORIZON_DAYS` — the *same day* at today's close with
reason `TIME_EXIT`.  Returns (surviving positions, exit trades, cash
credited). -/
def posScan (dt : ℕ) (day : DayData) :
    List Swap.Position → List Swap.Position × List Swap.Trade × ℚ
  | [] => ([], [], 0)
  | p :: rest =>
    let r := posScan dt day rest
    match day.lookup p.symbol with
    | none => ({ p with daysHeld := p.daysHeld + 1 } :: r.1, r.2.1, r.2.2)
    | some bar =>
      let exit? : Option (ℚ × String) :=
        match compute_stop_exit p.entryPrice STOP_LOSS_PCT bar with
        | some price => some (price, "STOP_LOSS")
        | none =>
          if HORIZON_DAYS ≤ p.daysHeld then some (bar.cl, "TIME_EXIT") else none
      match exit? with
      | none => ({ p with daysHeld := p.daysHeld + 1 } :: r.1, r.2.1, r.2.2)
      | some pr =>
        let revenue := (p.shares : ℚ) * pr.1
        let net_revenue := revenue - revenue * COMMISSION
        (r.1,
         r.2.1 ++ [{ entryDate := p.entryDate, exitDate := some dt,
                     symbol := p.symbol, entryPrice := p.entryPrice,
                     exitPrice := some pr.1, shares := p.shares,
                     ret := some (pr.1 / p.entryPrice - 1), reason := pr.2,
                     daysHeld := p.daysHeld }],
         r.2.2 + net_revenue)

/-- Daily mark-to-market (lines 294-302): today's close if the symbol
has a bar, otherwise the position's entry price. -/
def portfolio_value (day : DayData) (positions : List Swap.Position) : ℚ :=
  (positions.map (fun p => (p.shares : ℚ) *
    (match day.lookup p.symbol with
     | some bar => bar.cl
     | none => p.entryPrice))).sum

end Live

namespace TB

/-! Embedding of the daily loop of `backtest_triple_barier.py`
(regime-filter part, lines 133-180). -/

def TOP_K : ℕ := 5
def RET_CAP : ℚ := 1/2
def ROUNDTRIP_COST : ℚ := 1/1000
def HARD_BEAR_THRESHOLD : ℚ := -(2/100)

/-- One candidate row of the day: model score, `price_vol_20d` and the
realized horizon return `future_ret_h`. -/
structure Row where
  score : ℚ
  vol : ℚ
  fut : ℚ
deriving DecidableEq

/-- `day.sort_values("score", ascending=False).head(TOP_K)` (line 139). -/
def selectTopK (rows : List Row) : List Row :=
  (List.insertionSort (fun a b : Row => b.score ≤ a.score) rows).take TOP_K

/-- Normalized inverse-volatility weights with the `clip(lower=1e-6)`
from line 143. -/
def weights (day : List Row) : List ℚ :=
  let w := day.map (fun r => 1 / max r.vol (1/1000000))
  w.map (fun x => x / w.sum)

/-- `np.clip(fut_raw, -RET_CAP, RET_CAP)` (line 152). -/
def futCap (r : Row) : ℚ := min (max r.fut (-RET_CAP)) RET_CAP

/-- `np.sum(w * fut_eff)` for the selected rows (line 167, before the
`risk` factor). -/
def grossOf (day : List Row) : ℚ :=
  (((weights day).zip (day.map futCap)).map (fun q => q.1 * q.2)).sum

/-- One day of the long-only backtest: `none` when the day is skipped
(no rows, or hard-bear regime — the `continue` on line 162), otherwise
the net strategy return recorded in `daily_log`. -/
def dayResult (regime : ℚ) (rows : List Row) : Option ℚ :=
  if rows.isEmpty then none else
  let day := selectTopK rows
  if regime ≤ HARD_BEAR_THRESHOLD then none
  else
    let risk : ℚ := if regime < 0 then 1/2 else 1
    some (grossOf day * risk - ROUNDTRIP_COST * risk)

end TB

/-! ### Concrete scenario data -/

namespace Swap

def mkBar (o l h c sc : ℚ) : Bar :=
  { op := o, lo := l, hi := h, cl := c, score := sc }

/-- Day 0 of the MAX_POSITIONS scenario: six symbols, `A`-`E` the top
scores, so five ENTRY BUY orders are scheduled for day 1. -/
def c3day0 : DayData :=
  [("A", mkBar 10000 9900 10100 10000 (9/10)),
   ("B", mkBar 10000 9900 10100 10000 (8/10)),
   ("C", mkBar 10000 9900 10100 10000 (7/10)),
   ("D", mkBar 10000 9900 10100 10000 (6/10)),
   ("E", mkBar 10000 9900 10100 10000 (55/100)),
   ("F", mkBar 5000 4900 5100 5000 (1/10))]

/-- Day 1: the five BUYs fill (one share each); `A` now scores worst and
`F` best, so a SWAP pair (sell `A`, buy `F`) is scheduled for day 2. -/
def c3day1 : DayData :=
  [("A", mkBar 10000 9900 10100 10000 (1/10)),
   ("B", mkBar 10000 9900 10100 10000 (50/100)),
   ("C", mkBar 10000 9900 10100 10000 (49/100)),
   ("D", mkBar 10000 9900 10100 10000 (48/100)),
   ("E", mkBar 10000 9900 10100 10000 (47/100)),
   ("F", mkBar 5000 4900 5100 5000 (9/10))]

/-- Day 2: `A` has no bar, so the swap SELL is deferred, while the swap
BUY of `F` fills — six positions are now open. -/
def c3day2 : DayData :=
  [("B", mkBar 10000 9900 10100 10000 0),
   ("C", mkBar 10000 9900 10100 10000 0),
   ("D", mkBar 10000 9900 10100 10000 0),
   ("E", mkBar 10000 9900 10100 10000 0),
   ("F", mkBar 5000 4900 5100 5000 0)]

def c3days : List DayData := [c3day0, c3day1, c3day2]

/-- Equity-fallback scenario: `A` is bought on day 1 (entry 10100 after
slippage), closes day 1 at 12000, and has no bar on day 2. -/
def c8day0 : DayData := [("A", mkBar 10000 9900 10100 10000 (9/10))]

def c8day1 : DayData := [("A", mkBar 10000 9900 12100 12000 (9/10))]

def c8day2 : DayData := [("Z", mkBar 1 1 1 1 0)]

def c8days : List DayData := [c8day0, c8day1, c8day2]

/-- Insufficient-cash BUY: cash 100 against a net cost of 10120.2. -/
def c1st : ExecSt := { cash := 100, portfolio := [], newPending := [], trades := [] }

def c1order : Order :=
  { side := Side.buy, symbol := "A", target := 0, capital := 20000, reason := "ENTRY" }

def c1day : DayData := [("A", mkBar 10000 9900 10100 10000 0)]

/-- Scenario B of the spec: entry 100, stop level 95, day low 90, open 97. -/
def c2pos : Position :=
  { symbol := "A", entryDate := 0, entryPrice := 100, shares := 10, daysHeld := 4 }

def c2day : DayData := [("A", mkBar 97 90 98 96 0)]

/-- Orphan SELL: the portfolio holds only `B`, the order sells `A`. -/
def c10st : ExecSt :=
  { cash := 500,
    portfolio := [{ symbol := "B", entryDate := 0, entryPrice := 10, shares := 3,
                    daysHeld := 2 }],
    newPending := [], trades := [] }

def c10order : Order :=
  { side := Side.sell, symbol := "A", target := 3, capital := 0, reason := "SWAP" }

def c10day : DayData := [("A", mkBar 50 49 51 50 0)]

/-- Swap pairing, equal-gap case: candidate score exceeds the position
score by exactly `SWAP_GAP`. -/
def c7posA : Position :=
  { symbol := "A", entryDate := 0, entryPrice := 10, shares := 1, daysHeld := 3 }

def c7posB : Position :=
  { symbol := "B", entryDate := 0, entryPrice := 10, shares := 1, daysHeld := 3 }

end Swap

namespace Live

/-- A position that has reached the horizon, on a day whose bar does not
touch the stop level (close 101 ≠ open 98). -/
def c5pos : Swap.Position :=
  { symbol := "A", entryDate := 0, entryPrice := 100, shares := 10, daysHeld := 20 }

def c5day : DayData := [("A", Swap.mkBar 98 97 102 101 0)]

/-- Insufficient cash in the live manager: cash 100 against a planned
buy of two shares at 10000 (total cost 20040). -/
def c1st : BuySt := { cash := 100, positions := [], newPending := [], trades := [] }

def c1pending : Pending :=
  { symbol := "A", planned_capital := 20000, decision_date := 0 }

end Live

namespace TB

/-- A single candidate row used for the regime-filter witness. -/
def c9row : Row := { score := 1/2, vol := 1/100, fut := 2/10 }

end TB

/-! ### Claim theorems -/

section RatEval

attribute [local semireducible] Rat.add Rat.mul Rat.sub Rat.inv

/-- Claim C3 (code bug): after day 2 of `c3days` the swap backtest holds
six open positions, exceeding `MAX_POSITIONS = 5`: the swap SELL of `A`
was deferred (no bar for `A` on day 2) while the paired swap BUY of `F`
filled, and nothing re-checks the position cap at fill time. -/
theorem C3_max_positions_violated :
    Swap.MAX_POSITIONS < (Swap.run Swap.c3days).portfolio.length ∧
    (Swap.run Swap.c3days).portfolio.map Swap.Position.symbol =
      ["A", "B", "C", "D", "E", "F"] := by
  decide

/-- Claim C1, counterexample: in the swap backtest, a pending BUY whose
symbol has a bar today but whose net cost (10120.2) exceeds cash (100)
is consumed without effect — it is dropped from the pending queue, not
re-deferred as the claim states. -/
theorem C1_counterexample :
    Swap.execOrder 0 Swap.c1day Swap.c1st Swap.c1order = Swap.c1st ∧
    Swap.c1st.newPending = [] ∧
    (Swap.c1day.lookup Swap.c1order.symbol).isSome ∧
    (pyInt (Swap.c1order.capital / (10000 * (1 + Swap.SLIPPAGE_BUY)))).toNat = 1 ∧
    Swap.c1st.cash <
      (1 : ℚ) * (10000 * (1 + Swap.SLIPPAGE_BUY)) * (1 + Swap.COMMISSION) := by
  decide

/-- Claim C2, counterexample: on spec Scenario B (entry 100, stop level
95, low 90, open 97) the swap backtest books the stop trade at
`95·(1−SLIPPAGE_SELL) = 94.525`, not at the claimed exit price 95. -/
theorem C2_counterexample :
    ((Swap.stopScan 5 Swap.c2day [Swap.c2pos]).2.1.map Swap.Trade.exitPrice) =
      [some (3781/40)] ∧
    ((Swap.stopScan 5 Swap.c2day [Swap.c2pos]).2.1.map Swap.Trade.reason) =
      ["STOP_LOSS"] ∧
    (3781/40 : ℚ) = 95 * (1 - Swap.SLIPPAGE_SELL) ∧ (3781/40 : ℚ) ≠ 95 := by
  decide

/-- Claim C5, counterexample: in the live manager, a position with
`days_held = 20` and no stop trigger is closed the *same day* at that
day's close (101, ≠ open 98) with reason TIME_EXIT — not scheduled as a
next-day SELL at the next open. -/
theorem C5_counterexample :
    (Live.posScan 30 Live.c5day [Live.c5pos]).1 = [] ∧
    ((Live.posScan 30 Live.c5day [Live.c5pos]).2.1.map
      (fun t => (t.reason, t.exitDate, t.exitPrice))) =
      [("TIME_EXIT", some 30, some 101)] ∧
    (101 : ℚ) = (Swap.mkBar 98 97 102 101 0).cl ∧
    (Swap.mkBar 98 97 102 101 0).op ≠ (Swap.mkBar 98 97 102 101 0).cl := by
  decide

/-- Claim C7, counterexample.  First conjunct: a pair is formed when the
candidate beats the position by *exactly* `SWAP_GAP` (the claim requires
strictly more).  Remaining conjuncts: with the worst position `A`
time-exited, the code pairs `B` with the second-best candidate `Y`,
discarding the best candidate `X` (whose gap over `B` is 0.7 ≥
`SWAP_GAP`) together with the skipped index — not the greedy
descending-gap matching over the remaining symbols the claim describes. -/
theorem C7_counterexample :
    Swap.planSwaps [] [(Swap.c7posA, 1/2)] [("F", 11/20)] =
      [(Swap.c7posA, "F")] ∧
    (11/20 : ℚ) - 1/2 = Swap.SWAP_GAP ∧
    Swap.planSwaps ["A"] [(Swap.c7posA, 1/10), (Swap.c7posB, 2/10)]
        [("X", 9/10), ("Y", 8/10)] = [(Swap.c7posB, "Y")] ∧
    Swap.SWAP_GAP ≤ (9/10 : ℚ) - 2/10 := by
  decide

/-- Claim C8, counterexample: on `c8days`, the day-2 equity snapshot
marks the bar-less symbol `A` at its entry price 10100, not at its last
known close 12000 — the snapshot is 99979.8, where the claimed
last-known-price rule would give 101879.8. -/
theorem C8_counterexample :
    (Swap.run Swap.c8days).equity =
      [(0, 100000), (1, 509399/5), (2, 499899/5)] ∧
    (Swap.run Swap.c8days).cash = 449399/5 ∧
    (Swap.run Swap.c8days).portfolio.map
      (fun p => (p.symbol, p.entryPrice, p.shares)) = [("A", 10100, 1)] ∧
    (499899/5 : ℚ) = 449399/5 + 1 * 10100 ∧
    (499899/5 : ℚ) ≠ 449399/5 + 1 * 12000 := by
  decide

/-- Claim C10: a SELL order dated today whose symbol has a bar but whose
symbol matches no open position is consumed silently: the state is
unchanged (no trade record, cash and portfolio untouched) and the order
is not re-deferred. -/
theorem C10_orphan_sell (dt : ℕ) (day : DayData) (s : Swap.ExecSt)
    (o : Swap.Order) (b : Bar) (hside : o.side = Swap.Side.sell)
    (htgt : o.target = dt) (hbar : day.lookup o.symbol = some b)
    (hnopos : Swap.findPos s.portfolio o.symbol = none) :
    Swap.execOrder dt day s o = s := by
  simp [Swap.execOrder, htgt, hbar, hside, hnopos]

/-- Witness for C10 at a concrete input: selling `A` while holding only
`B`. -/
theorem C10_witness :
    Swap.execOrder 3 Swap.c10day Swap.c10st Swap.c10order = Swap.c10st :=
  C10_orphan_sell 3 Swap.c10day Swap.c10st Swap.c10order (Swap.mkBar 50 49 51 50 0)
    rfl rfl (by decide) (by decide)

end RatEval

/-- Claim C1 (amended): in the live portfolio manager, a pending BUY
whose symbol has a bar today, whose computed share count is positive,
and whose total cost exceeds cash is re-deferred unchanged — kept in the
pending queue with cash, positions and trade log untouched (and in
particular never partially filled). -/
theorem C1_live_redefer (dt : ℕ) (day : DayData) (s : Live.BuySt)
    (o : Live.Pending) (b : Bar) (hbar : day.lookup o.symbol = some b)
    (hshares : (pyInt (o.planned_capital / b.op)).toNat ≠ 0)
    (hcash : s.cash < ((pyInt (o.planned_capital / b.op)).toNat : ℚ) * b.op +
      ((pyInt (o.planned_capital / b.op)).toNat : ℚ) * b.op * Live.COMMISSION) :
    Live.execBuy dt day s o = { s with newPending := s.newPending ++ [o] } := by
  simp [Live.execBuy, hbar, hshares, hcash]

section RatEval2

attribute [local semireducible] Rat.add Rat.mul Rat.sub Rat.inv

/-- Witness for the amended C1: the concrete insufficient-cash pending
buy is still pending afterwards, unchanged. -/
theorem C1_witness :
    Live.execBuy 0 Swap.c1day Live.c1st Live.c1pending =
      { Live.c1st with newPending := [Live.c1pending] } :=
  C1_live_redefer 0 Swap.c1day Live.c1st Live.c1pending
    (Swap.mkBar 10000 9900 10100 10000 0) (by decide) (by decide) (by decide)

end RatEval2

/-- Claim C2 (amended): with stop level `entry·(1+STOP_LOSS_PCT)`, the
swap backtest closes a position the same day iff the day's low is at or
below the level; the fill base price is the open on a gap-down
(`open ≤ level`), else exactly the level; the single trade record has
reason STOP_LOSS but books the base price worsened by sell slippage
(base·(1−SLIPPAGE_SELL)), while the live manager's stop evaluator
returns the unworsened base price (95 in spec Scenario B). -/
theorem C2_stop_rule (dt : ℕ) (p : Swap.Position) (day : DayData) (b : Bar)
    (lvl : ℚ) (hlvl : lvl = p.entryPrice * (1 + Swap.STOP_LOSS_PCT))
    (hbar : day.lookup p.symbol = some b) :
    ((Swap.compute_stop_loss p.entryPrice b).isSome ↔ b.lo ≤ lvl) ∧
    (b.lo ≤ lvl →
      Swap.stopScan dt day [p] =
        ([],
         [{ entryDate := p.entryDate, exitDate := some dt, symbol := p.symbol,
            entryPrice := p.entryPrice,
            exitPrice :=
              some ((if b.op ≤ lvl then b.op else lvl) * (1 - Swap.SLIPPAGE_SELL)),
            shares := p.shares,
            ret := some ((if b.op ≤ lvl then b.op else lvl) *
              (1 - Swap.SLIPPAGE_SELL) / p.entryPrice - 1),
            reason := "STOP_LOSS", daysHeld := p.daysHeld }],
         (p.shares : ℚ) * ((if b.op ≤ lvl then b.op else lvl) *
           (1 - Swap.SLIPPAGE_SELL)) * (1 - Swap.COMMISSION))) ∧
    (¬ b.lo ≤ lvl →
      Swap.stopScan dt day [p] =
        ([{ p with daysHeld := p.daysHeld + 1 }], [], 0)) ∧
    (b.lo ≤ b.op →
      Live.compute_stop_exit p.entryPrice Swap.STOP_LOSS_PCT b =
        if b.lo ≤ lvl then some (if b.op ≤ lvl then b.op else lvl) else none) := by
  subst hlvl
  refine ⟨?_, ?_, ?_, ?_⟩
  · unfold Swap.compute_stop_loss
    by_cases h : b.lo ≤ p.entryPrice * (1 + Swap.STOP_LOSS_PCT) <;> simp [h]
  · intro h
    simp [Swap.stopScan, Swap.compute_stop_loss, hbar, h]
  · intro h
    simp [Swap.stopScan, Swap.compute_stop_loss, hbar, h]
  · intro hlo
    unfold Live.compute_stop_exit
    by_cases h1 : b.op ≤ p.entryPrice * (1 + Swap.STOP_LOSS_PCT)
    · simp [h1, le_trans hlo h1]
    · simp [h1]

section RatEval3

attribute [local semireducible] Rat.add Rat.mul Rat.sub Rat.inv

/-- Witness for the amended C2, at spec Scenario B: entry 100, open 97,
low 90, stop level 95, booked exit 94.525. -/
theorem C2_witness :
    Swap.stopScan 5 Swap.c2day [Swap.c2pos] =
      ([],
       [{ entryDate := 0, exitDate := some 5, symbol := "A", entryPrice := 100,
          exitPrice := some (3781/40), shares := 10, ret := some (-(219/4000)),
          reason := "STOP_LOSS", daysHeld := 4 }],
       10 * (3781/40) * (1 - Swap.COMMISSION)) := by
  have h := (C2_stop_rule 5 Swap.c2pos Swap.c2day (Swap.mkBar 97 90 98 96 0) 95
    (by decide) (by decide)).2.1 (by decide)
  exact h.trans (by decide)

end RatEval3

/-- Claim C9: the regime filter of the triple-barrier backtest, applied
once per day to the whole selected basket: at or below the hard-bear
threshold the day is skipped entirely (no trades, whatever the scores);
negative but above the threshold halves the gross (and the round-trip
cost); non-negative uses full sizing — equivalently, a moderately
negative day books exactly half of what the same rows book in a
neutral regime. -/
theorem C9_regime_filter (regime : ℚ) (rows : List TB.Row) :
    (regime ≤ TB.HARD_BEAR_THRESHOLD → TB.dayResult regime rows = none) ∧
    (TB.HARD_BEAR_THRESHOLD < regime → regime < 0 → rows ≠ [] →
      TB.dayResult regime rows =
        some (TB.grossOf (TB.selectTopK rows) * (1/2) -
          TB.ROUNDTRIP_COST * (1/2))) ∧
    (0 ≤ regime → rows ≠ [] →
      TB.dayResult regime rows =
        some (TB.grossOf (TB.selectTopK rows) - TB.ROUNDTRIP_COST)) ∧
    (TB.HARD_BEAR_THRESHOLD < regime → regime < 0 →
      TB.dayResult regime rows = (TB.dayResult 0 rows).map (fun x => x / 2)) := by
  have hθ : ¬ ((0 : ℚ) ≤ TB.HARD_BEAR_THRESHOLD) := by
    norm_num [TB.HARD_BEAR_THRESHOLD]
  refine ⟨?_, ?_, ?_, ?_⟩
  · intro h
    cases rows with
    | nil => simp [TB.dayResult]
    | cons a l => simp [TB.dayResult, h]
  · intro h1 h2 _
    cases rows with
    | nil => simp_all
    | cons a l => simp [TB.dayResult, not_le.mpr h1, h2]
  · intro h h2
    cases rows with
    | nil => simp_all
    | cons a l =>
      have : ¬ (regime ≤ TB.HARD_BEAR_THRESHOLD) := by
        intro hc
        exact hθ (le_trans h hc)
      simp [TB.dayResult, this, not_lt.mpr h]
  · intro h1 h2
    cases rows with
    | nil => simp [TB.dayResult]
    | cons a l =>
      have h0 : ¬ ((0 : ℚ) < 0) := lt_irrefl 0
      simp only [TB.dayResult, List.isEmpty_cons, Bool.false_eq_true, if_false,
        not_le.mpr h1, h2, hθ, h0, ite_true, ite_false, if_neg, if_pos,
        Option.map_some]
      rw [show Option.map (fun x : ℚ => x / 2)
          (some (TB.grossOf (TB.selectTopK (a :: l)) * 1 - TB.ROUNDTRIP_COST * 1)) =
          some ((TB.grossOf (TB.selectTopK (a :: l)) * 1 - TB.ROUNDTRIP_COST * 1) / 2)
        from rfl]
      congr 1
      ring

section RatEval4

attribute [local semireducible] Rat.add Rat.mul Rat.sub Rat.inv

/-- Witness for C9: a moderately negative regime (−0.01) halves the
day's net return on a one-row basket. -/
theorem C9_witness : TB.dayResult (-(1/100)) [TB.c9row] = some (199/2000) := by
  have h := (C9_regime_filter (-(1/100)) [TB.c9row]).2.1 (by decide) (by decide)
    (by decide)
  exact h.trans (by decide)

end RatEval4

/-- Claim C8 (amended): every day's equity snapshot appends exactly one
row `(date, cash + portfolio value)` where cash and portfolio are the
end-of-day state, and the portfolio value marks each position at shares
times today's close when the symbol has a bar today and otherwise at
the position's *entry price* (not the most recent traded price). -/
theorem C8_equity_mark (dt : ℕ) (next : Option ℕ) (day : DayData)
    (s : Swap.State) :
    ((Swap.dayStep dt next day s).equity =
      s.equity ++ [(dt, (Swap.dayStep dt next day s).cash +
        Swap.portValue day (Swap.dayStep dt next day s).portfolio)]) ∧
    (∀ (p : Swap.Position) (ps : List Swap.Position) (b : Bar),
      day.lookup p.symbol = some b →
      Swap.portValue day (p :: ps) =
        (p.shares : ℚ) * b.cl + Swap.portValue day ps) ∧
    (∀ (p : Swap.Position) (ps : List Swap.Position),
      day.lookup p.symbol = none →
      Swap.portValue day (p :: ps) =
        (p.shares : ℚ) * p.entryPrice + Swap.portValue day ps) := by
  refine ⟨?_, ?_, ?_⟩
  · cases next <;> simp [Swap.dayStep]
  · intro p ps b h
    simp [Swap.portValue, h]
  · intro p ps h
    simp [Swap.portValue, h]

section RatEval5

attribute [local semireducible] Rat.add Rat.mul Rat.sub Rat.inv

/-- Witness for the amended C8: a bar-less symbol is marked at its entry
price 10100 in the snapshot. -/
theorem C8_witness :
    Swap.portValue Swap.c8day2
      [{ symbol := "A", entryDate := 1, entryPrice := 10100, shares := 1,
         daysHeld := 2 }] = 10100 := by
  have h := (C8_equity_mark 2 none Swap.c8day2 Swap.initState).2.2
    { symbol := "A", entryDate := 1, entryPrice := 10100, shares := 1,
      daysHeld := 2 } [] (by decide)
  exact h.trans (by decide)

end RatEval5

/-- Anything already in the accumulator survives the time-exit fold. -/
theorem timeExit_foldl_mono (l : List Swap.Position) :
    ∀ (acc : List String) (x : String), x ∈ acc →
    x ∈ l.foldl (fun acc p =>
      if Swap.HORIZON_DAYS ≤ p.daysHeld ∧ p.symbol ∉ acc then acc ++ [p.symbol]
      else acc) acc := by
  induction l with
  | nil =>
    intro acc x hx
    simpa using hx
  | cons q rest ih =>
    intro acc x hx
    simp only [List.foldl_cons]
    apply ih
    split
    · exact List.mem_append_left _ hx
    · exact hx

/-- A position at or past the horizon contributes its symbol to the
time-exit fold. -/
theorem timeExit_foldl_mem (l : List Swap.Position) :
    ∀ (acc : List String) (p : Swap.Position), p ∈ l →
    Swap.HORIZON_DAYS ≤ p.daysHeld →
    p.symbol ∈ l.foldl (fun acc p =>
      if Swap.HORIZON_DAYS ≤ p.daysHeld ∧ p.symbol ∉ acc then acc ++ [p.symbol]
      else acc) acc := by
  induction l with
  | nil =>
    intro acc p hp _
    simp at hp
  | cons q rest ih =>
    intro acc p hp hd
    simp only [List.foldl_cons]
    rcases List.mem_cons.mp hp with h | h
    · subst h
      have hm : p.symbol ∈ (if Swap.HORIZON_DAYS ≤ p.daysHeld ∧ p.symbol ∉ acc
          then acc ++ [p.symbol] else acc) := by
        by_cases hin : p.symbol ∈ acc
        · split
          · exact List.mem_append_left _ hin
          · exact hin
        · rw [if_pos ⟨hd, hin⟩]
          exact List.mem_append_right _ (by simp)
      exact timeExit_foldl_mono rest _ _ hm
    · exact ih _ p h hd

/-- A held position at or past the horizon is in `timeExitSyms`. -/
theorem mem_timeExitSyms (port : List Swap.Position) (p : Swap.Position)
    (hp : p ∈ port) (hd : Swap.HORIZON_DAYS ≤ p.daysHeld) :
    p.symbol ∈ Swap.timeExitSyms port :=
  timeExit_foldl_mem port [] p hp hd

/-- `addSwapSells` only ever appends to the sell set. -/
theorem addSwapSells_mono (pairs : List (Swap.Position × String)) :
    ∀ (sells : List String) (x : String), x ∈ sells →
    x ∈ Swap.addSwapSells pairs sells := by
  induction pairs with
  | nil =>
    intro sells x hx
    simpa [Swap.addSwapSells] using hx
  | cons q rest ih =>
    intro sells x hx
    cases q with
    | mk w b =>
      simp only [Swap.addSwapSells]
      split
      · exact ih sells x hx
      · exact ih (sells ++ [w.symbol]) x (List.mem_append_left _ hx)

/-- Claim C5 (amended, swap backtest side).  First part: any open
position whose `days_held` has reached `HORIZON_DAYS` gets a SELL order
scheduled for the next trading day with reason TIME_EXIT.  Second part:
a SELL order executing on its target day at a symbol with a bar fills
at that day's open worsened by sell slippage, the same day it is dated
— there is no same-day close exit path in this engine (the live
manager, by contrast, exits at the same day's close, see the
counterexample). -/
theorem C5_swap_time_exit :
    (∀ (next : ℕ) (day : DayData) (cash : ℚ)
       (portfolio : List Swap.Position) (p : Swap.Position), p ∈ portfolio →
       Swap.HORIZON_DAYS ≤ p.daysHeld →
       ({ side := Swap.Side.sell, symbol := p.symbol, target := next,
          capital := 0, reason := "TIME_EXIT" } : Swap.Order) ∈
         Swap.schedule next day cash portfolio) ∧
    (∀ (dt : ℕ) (day : DayData) (s : Swap.ExecSt) (o : Swap.Order) (b : Bar)
       (pos : Swap.Position), o.side = Swap.Side.sell → o.target = dt →
       day.lookup o.symbol = some b →
       Swap.findPos s.portfolio o.symbol = some pos →
       Swap.execOrder dt day s o =
         { s with
           cash := s.cash + (pos.shares : ℚ) * (b.op * (1 - Swap.SLIPPAGE_SELL)) *
             (1 - Swap.COMMISSION),
           portfolio := Swap.removePos s.portfolio o.symbol,
           trades := s.trades ++
             [{ entryDate := pos.entryDate, exitDate := some dt,
                symbol := o.symbol, entryPrice := pos.entryPrice,
                exitPrice := some (b.op * (1 - Swap.SLIPPAGE_SELL)),
                shares := pos.shares,
                ret := some (b.op * (1 - Swap.SLIPPAGE_SELL) / pos.entryPrice - 1),
                reason := o.reason, daysHeld := pos.daysHeld }] }) := by
  constructor
  · intro next day cash portfolio p hp hd
    have htx := mem_timeExitSyms portfolio p hp hd
    have hmem : p.symbol ∈ Swap.addSwapSells
        (Swap.planSwaps (Swap.timeExitSyms portfolio)
          (Swap.posScores day portfolio)
          (Swap.bestCandidates day (portfolio.map Swap.Position.symbol)))
        (Swap.timeExitSyms portfolio) :=
      addSwapSells_mono _ _ _ htx
    simp only [Swap.schedule]
    apply List.mem_append_left
    apply List.mem_append_left
    simp only [Swap.sellOrders]
    refine List.mem_map.mpr ⟨p.symbol, hmem, ?_⟩
    rw [if_pos htx]
  · intro dt day s o b pos hside htgt hbar hpos
    simp [Swap.execOrder, hside, htgt, hbar, hpos]

section RatEval6

attribute [local semireducible] Rat.add Rat.mul Rat.sub Rat.inv

/-- Witness for the amended C5: the horizon position `A` gets a next-day
TIME_EXIT SELL scheduled. -/
theorem C5_witness :
    ({ side := Swap.Side.sell, symbol := "A", target := 31, capital := 0,
       reason := "TIME_EXIT" } : Swap.Order) ∈
      Swap.schedule 31 Live.c5day 1000 [Live.c5pos] :=
  C5_swap_time_exit.1 31 Live.c5day 1000 [Live.c5pos] Live.c5pos (by simp)
    (by decide)

end RatEval6

/-- First components of a zip, mapped, form a sublist of the mapped
first list. -/
theorem zip_fst_map_sublist {α β γ : Type} (f : α → γ) :
    ∀ (as : List α) (bs : List β),
    ((as.zip bs).map (fun q => f q.1)).Sublist (as.map f) := by
  intro as
  induction as with
  | nil =>
    intro bs
    simp
  | cons a rest ih =>
    intro bs
    cases bs with
    | nil => simp
    | cons b bs2 =>
      simpa using List.Sublist.cons₂ (f a) (ih bs2)

/-- Second components of a zip, mapped, form a sublist of the mapped
second list. -/
theorem zip_snd_map_sublist {α β γ : Type} (f : β → γ) :
    ∀ (as : List α) (bs : List β),
    ((as.zip bs).map (fun q => f q.2)).Sublist (bs.map f) := by
  intro as
  induction as with
  | nil =>
    intro bs
    simp
  | cons a rest ih =>
    intro bs
    cases bs with
    | nil => simp
    | cons b bs2 =>
      exact List.Sublist.trans (by simpa using List.Sublist.cons₂ (f b) (ih bs2))
        (List.Sublist.refl _)

/-- The pair-selection fold, characterized: when the position symbols
and candidate symbols are duplicate-free and none is already used, the
loop keeps exactly the index-aligned pairs whose gap is at least
`SWAP_GAP` and whose position is not time-exited. -/
theorem planSwapsAux_eq (timeExit : List String) :
    ∀ (z : List ((Swap.Position × ℚ) × (String × ℚ))) (uw ub : List String),
    ((z.map (fun q => q.1.1.symbol)).Nodup) →
    ((z.map (fun q => q.2.1)).Nodup) →
    (∀ q ∈ z, q.1.1.symbol ∉ uw) →
    (∀ q ∈ z, q.2.1 ∉ ub) →
    Swap.planSwapsAux timeExit z uw ub =
      (z.filter (fun q =>
        decide (Swap.SWAP_GAP ≤ q.2.2 - q.1.2 ∧ q.1.1.symbol ∉ timeExit))).map
        (fun q => (q.1.1, q.2.1)) := by
  intro z
  induction z with
  | nil =>
    intro uw ub _ _ _ _
    rfl
  | cons q rest ih =>
    intro uw ub hw hb huw hub
    obtain ⟨⟨w, ws⟩, b, bs⟩ := q
    have hwin : w.symbol ∉ uw := huw _ (List.mem_cons_self _ _)
    have hbin : b ∉ ub := hub _ (List.mem_cons_self _ _)
    have hwrest : w.symbol ∉ rest.map (fun q => q.1.1.symbol) :=
      (List.nodup_cons.mp hw).1
    have hbrest : b ∉ rest.map (fun q => q.2.1) := (List.nodup_cons.mp hb).1
    by_cases hgap : bs - ws < Swap.SWAP_GAP
    · rw [Swap.planSwapsAux, if_pos hgap,
        ih uw ub (List.nodup_cons.mp hw).2 (List.nodup_cons.mp hb).2
          (fun q hq => huw q (List.mem_cons_of_mem _ hq))
          (fun q hq => hub q (List.mem_cons_of_mem _ hq)),
        List.filter_cons_of_neg]
      simp [not_le.mpr hgap]
    · by_cases htx : w.symbol ∈ timeExit
      · rw [Swap.planSwapsAux, if_neg hgap, if_neg hwin, if_neg hbin, if_pos htx,
          ih uw ub (List.nodup_cons.mp hw).2 (List.nodup_cons.mp hb).2
            (fun q hq => huw q (List.mem_cons_of_mem _ hq))
            (fun q hq => hub q (List.mem_cons_of_mem _ hq)),
          List.filter_cons_of_neg]
        simp [htx]
      · rw [Swap.planSwapsAux, if_neg hgap, if_neg hwin, if_neg hbin, if_neg htx,
          ih (uw ++ [w.symbol]) (ub ++ [b]) (List.nodup_cons.mp hw).2
            (List.nodup_cons.mp hb).2 ?_ ?_, List.filter_cons_of_pos]
        · simp [not_lt.mp hgap, htx]
        · simp [not_lt.mp hgap, htx]
        · intro q hq
          simp only [List.mem_append, List.mem_singleton]
          rintro (h | h)
          · exact huw q (List.mem_cons_of_mem _ hq) h
          · exact hwrest (h ▸ List.mem_map_of_mem _ hq)
        · intro q hq
          simp only [List.mem_append, List.mem_singleton]
          rintro (h | h)
          · exact hub q (List.mem_cons_of_mem _ hq) h
          · exact hbrest (h ▸ List.mem_map_of_mem _ hq)

/-- Claim C7 (amended): with duplicate-free held-position and candidate
symbol lists, the day's rotation set is exactly the index-aligned
pairing of the k-th worst-scoring position with the k-th best unheld
candidate over the first `min(SWAP_LIMIT, …)` indices, keeping a pair
iff the gap is **at least** `SWAP_GAP` and the position is not already
scheduled for TIME_EXIT (a rejected index discards both the position
and the candidate at that index); at most `SWAP_LIMIT` pairs result. -/
theorem C7_swap_pairing (timeExit : List String)
    (ps : List (Swap.Position × ℚ)) (best : List (String × ℚ))
    (hw : (ps.map (fun q => q.1.symbol)).Nodup)
    (hb : (best.map Prod.fst).Nodup) :
    Swap.planSwaps timeExit ps best =
      (((ps.zip best).take Swap.SWAP_LIMIT).filter (fun q =>
        decide (Swap.SWAP_GAP ≤ q.2.2 - q.1.2 ∧ q.1.1.symbol ∉ timeExit))).map
        (fun q => (q.1.1, q.2.1)) ∧
    (Swap.planSwaps timeExit ps best).length ≤ Swap.SWAP_LIMIT := by
  have hsub1 : (((ps.zip best).take Swap.SWAP_LIMIT).map
      (fun q => q.1.1.symbol)).Sublist (ps.map (fun q => q.1.symbol)) :=
    List.Sublist.trans (List.Sublist.map _ (List.take_sublist _ _))
      (zip_fst_map_sublist (fun q => q.1.symbol) ps best)
  have hsub2 : (((ps.zip best).take Swap.SWAP_LIMIT).map
      (fun q => q.2.1)).Sublist (best.map Prod.fst) :=
    List.Sublist.trans (List.Sublist.map _ (List.take_sublist _ _))
      (zip_snd_map_sublist Prod.fst ps best)
  have heq := planSwapsAux_eq timeExit ((ps.zip best).take Swap.SWAP_LIMIT) [] []
    (hw.sublist hsub1) (hb.sublist hsub2) (by simp) (by simp)
  refine ⟨heq, ?_⟩
  rw [Swap.planSwaps, heq, List.length_map]
  calc (((ps.zip best).take Swap.SWAP_LIMIT).filter _).length
      ≤ ((ps.zip best).take Swap.SWAP_LIMIT).length := List.length_filter_le _ _
    _ ≤ Swap.SWAP_LIMIT := by
        rw [List.length_take]
        exact min_le_left _ _

section RatEval7

attribute [local semireducible] Rat.add Rat.mul Rat.sub Rat.inv

/-- Witness for the amended C7: a single aligned pair with gap 0.8 is
kept. -/
theorem C7_witness :
    Swap.planSwaps [] [(Swap.c7posA, 1/10)] [("X", 9/10)] =
      [(Swap.c7posA, "X")] := by
  have h := (C7_swap_pairing [] [(Swap.c7posA, 1/10)] [("X", 9/10)]
    (by decide) (by decide)).1
  exact h.trans (by decide)

end RatEval7

/-- A successful lookup returns a pair of the association list. -/
theorem lookup_mem :
    ∀ (day : DayData) {sym : String} {b : Bar},
    day.lookup sym = some b → (sym, b) ∈ day := by
  intro day
  induction day with
  | nil =>
    intro sym b hl
    simp [List.lookup] at hl
  | cons kv rest ih =>
    intro sym b hl
    obtain ⟨k, v⟩ := kv
    simp only [List.lookup] at hl
    split at hl
    · cases hl
      have hk : sym = k := by
        rename_i hbeq
        exact eq_of_beq hbeq
      subst hk
      exact List.mem_cons_self _ _
    · exact List.mem_cons_of_mem _ (ih hl)

/-- Removing a position yields a sublist of the portfolio. -/
theorem removePos_sublist (sym : String) :
    ∀ (l : List Swap.Position), (Swap.removePos l sym).Sublist l := by
  intro l
  induction l with
  | nil => simp [Swap.removePos]
  | cons p rest ih =>
    rw [Swap.removePos]
    split
    · exact List.sublist_cons_self _ _
    · exact List.Sublist.cons₂ _ ih

/-- A triggered stop exit price is non-negative when the entry price and
the day's open are. -/
theorem compute_stop_loss_nonneg (entry : ℚ) (b : Bar) (x : ℚ)
    (hentry : 0 ≤ entry) (hop : 0 ≤ b.op)
    (hx : Swap.compute_stop_loss entry b = some x) : 0 ≤ x := by
  unfold Swap.compute_stop_loss at hx
  simp only at hx
  split at hx
  · cases hx
    split
    · exact hop
    · have : (0 : ℚ) ≤ 1 + Swap.STOP_LOSS_PCT := by
        norm_num [Swap.STOP_LOSS_PCT]
      exact mul_nonneg hentry this
  · cases hx

/-- Order execution keeps cash non-negative and entry prices
non-negative (BUY fills are cash-guarded; SELL fills only credit). -/
theorem execOrder_cash_inv (dt : ℕ) (day : DayData)
    (hday : ∀ q ∈ day, 0 ≤ q.2.op) (s : Swap.ExecSt) (o : Swap.Order)
    (hc : 0 ≤ s.cash) (hp : ∀ p ∈ s.portfolio, 0 ≤ p.entryPrice) :
    0 ≤ (Swap.execOrder dt day s o).cash ∧
    ∀ p ∈ (Swap.execOrder dt day s o).portfolio, 0 ≤ p.entryPrice := by
  by_cases ht : o.target ≠ dt
  · simp only [Swap.execOrder, if_pos ht]
    exact ⟨hc, hp⟩
  · cases hLook : day.lookup o.symbol with
    | none =>
      simp only [Swap.execOrder, if_neg ht, hLook]
      exact ⟨hc, hp⟩
    | some bar =>
      have hop : 0 ≤ bar.op := hday _ (lookup_mem day hLook)
      cases hSide : o.side with
      | sell =>
        cases hPos : Swap.findPos s.portfolio o.symbol with
        | none =>
          simp only [Swap.execOrder, if_neg ht, hLook, hSide, hPos]
          exact ⟨hc, hp⟩
        | some pos =>
          simp only [Swap.execOrder, if_neg ht, hLook, hSide, hPos]
          constructor
          · apply add_nonneg hc
            apply mul_nonneg
            apply mul_nonneg (Nat.cast_nonneg _)
            · apply mul_nonneg hop
              norm_num [Swap.SLIPPAGE_SELL]
            · norm_num [Swap.COMMISSION]
          · intro p hmem
            exact hp p ((removePos_sublist o.symbol s.portfolio).subset hmem)
      | buy =>
        by_cases hsh :
            (pyInt (o.capital / (bar.op * (1 + Swap.SLIPPAGE_BUY)))).toNat = 0
        · simp only [Swap.execOrder, if_neg ht, hLook, hSide, if_pos hsh]
          exact ⟨hc, hp⟩
        · by_cases hcash : s.cash <
            ((pyInt (o.capital / (bar.op * (1 + Swap.SLIPPAGE_BUY)))).toNat : ℚ) *
              (bar.op * (1 + Swap.SLIPPAGE_BUY)) * (1 + Swap.COMMISSION)
          · simp only [Swap.execOrder, if_neg ht, hLook, hSide, if_neg hsh,
              if_pos hcash]
            exact ⟨hc, hp⟩
          · simp only [Swap.execOrder, if_neg ht, hLook, hSide, if_neg hsh,
              if_neg hcash]
            constructor
            · simpa using sub_nonneg.mpr (not_lt.mp hcash)
            · intro p hmem
              rcases List.mem_append.mp hmem with h | h
              · exact hp p h
              · rcases List.mem_singleton.mp h with rfl
                apply mul_nonneg hop
                norm_num [Swap.SLIPPAGE_BUY]

/-- The whole pending-order pass keeps cash and entry prices
non-negative. -/
theorem execOrders_cash_inv (dt : ℕ) (day : DayData)
    (hday : ∀ q ∈ day, 0 ≤ q.2.op) :
    ∀ (L : List Swap.Order) (s : Swap.ExecSt), 0 ≤ s.cash →
    (∀ p ∈ s.portfolio, 0 ≤ p.entryPrice) →
    0 ≤ (Swap.execOrders dt day L s).cash ∧
    ∀ p ∈ (Swap.execOrders dt day L s).portfolio, 0 ≤ p.entryPrice := by
  intro L
  induction L with
  | nil =>
    intro s hc hp
    exact ⟨hc, hp⟩
  | cons o rest ih =>
    intro s hc hp
    have h := execOrder_cash_inv dt day hday s o hc hp
    exact ih _ h.1 h.2

/-- The stop-loss scan only credits cash and keeps entry prices
non-negative. -/
theorem stopScan_inv (dt : ℕ) (day : DayData)
    (hday : ∀ q ∈ day, 0 ≤ q.2.op) :
    ∀ (ps : List Swap.Position), (∀ p ∈ ps, 0 ≤ p.entryPrice) →
    0 ≤ (Swap.stopScan dt day ps).2.2 ∧
    ∀ p ∈ (Swap.stopScan dt day ps).1, 0 ≤ p.entryPrice := by
  intro ps
  induction ps with
  | nil =>
    intro _
    constructor
    · simp [Swap.stopScan]
    · simp [Swap.stopScan]
  | cons p rest ih =>
    intro hp
    have hrest := ih (fun q hq => hp q (List.mem_cons_of_mem _ hq))
    have hpe : 0 ≤ p.entryPrice := hp p (List.mem_cons_self _ _)
    cases hLook : day.lookup p.symbol with
    | none =>
      simp only [Swap.stopScan, hLook]
      refine ⟨hrest.1, ?_⟩
      intro q hq
      rcases List.mem_cons.mp hq with rfl | h
      · exact hpe
      · exact hrest.2 q h
    | some bar =>
      have hop : 0 ≤ bar.op := hday _ (lookup_mem day hLook)
      cases hStop : Swap.compute_stop_loss p.entryPrice bar with
      | none =>
        simp only [Swap.stopScan, hLook, hStop]
        refine ⟨hrest.1, ?_⟩
        intro q hq
        rcases List.mem_cons.mp hq with rfl | h
        · exact hpe
        · exact hrest.2 q h
      | some exit_raw =>
        have hx : 0 ≤ exit_raw := compute_stop_loss_nonneg _ _ _ hpe hop hStop
        simp only [Swap.stopScan, hLook, hStop]
        refine ⟨?_, hrest.2⟩
        apply add_nonneg hrest.1
        apply mul_nonneg
        apply mul_nonneg (Nat.cast_nonneg _)
        · apply mul_nonneg hx
          norm_num [Swap.SLIPPAGE_SELL]
        · norm_num [Swap.COMMISSION]

/-- One simulated day keeps cash and entry prices non-negative. -/
theorem dayStep_cash_inv (dt : ℕ) (next : Option ℕ) (day : DayData)
    (s : Swap.State) (hday : ∀ q ∈ day, 0 ≤ q.2.op) (hc : 0 ≤ s.cash)
    (hp : ∀ p ∈ s.portfolio, 0 ≤ p.entryPrice) :
    0 ≤ (Swap.dayStep dt next day s).cash ∧
    ∀ p ∈ (Swap.dayStep dt next day s).portfolio, 0 ≤ p.entryPrice := by
  have he := execOrders_cash_inv dt day hday s.pending
    { cash := s.cash, portfolio := s.portfolio, newPending := [],
      trades := s.trades } hc hp
  have hs := stopScan_inv dt day hday _ he.2
  cases next <;> simp only [Swap.dayStep] <;>
    exact ⟨add_nonneg he.1 hs.1, hs.2⟩

/-- The day fold keeps cash and entry prices non-negative. -/
theorem runAux_cash_inv :
    ∀ (days : List DayData) (dt : ℕ) (s : Swap.State),
    (∀ day ∈ days, ∀ q ∈ day, 0 ≤ q.2.op) → 0 ≤ s.cash →
    (∀ p ∈ s.portfolio, 0 ≤ p.entryPrice) →
    0 ≤ (Swap.runAux dt days s).cash := by
  intro days
  induction days with
  | nil =>
    intro dt s _ hc _
    exact hc
  | cons day rest ih =>
    intro dt s hday hc hp
    have h := dayStep_cash_inv dt (if rest.isEmpty then none else some (dt + 1))
      day s (hday day (List.mem_cons_self _ _)) hc hp
    exact ih (dt + 1) _ (fun d hd => hday d (List.mem_cons_of_mem _ hd)) h.1 h.2

/-- Claim C4: starting from the initial state, when every bar's open is
non-negative, cash is non-negative after every simulated day (the state
after day `n` is the state of the run over the first `n` days). -/
theorem C4_cash_nonneg (days : List DayData)
    (hday : ∀ day ∈ days, ∀ q ∈ day, 0 ≤ q.2.op) (n : ℕ) :
    0 ≤ (Swap.run (List.take n days)).cash := by
  apply runAux_cash_inv
  · intro day hd
    exact hday day (List.take_subset n days hd)
  · norm_num [Swap.initState, Swap.INITIAL_CAPITAL]
  · intro p hp
    simp [Swap.initState] at hp

section RatEval8

attribute [local semireducible] Rat.add Rat.mul Rat.sub Rat.inv

/-- Witness for C4 after two days of the six-symbol scenario. -/
theorem C4_witness : 0 ≤ (Swap.run (List.take 2 Swap.c3days)).cash :=
  C4_cash_nonneg Swap.c3days (by decide) 2

end RatEval8

/-- The pair-selection fold never reuses a candidate symbol: the chosen
best symbols are duplicate-free and avoid the used set. -/
theorem planSwapsAux_snd_nodup (timeExit : List String) :
    ∀ (z : List ((Swap.Position × ℚ) × (String × ℚ))) (uw ub : List String),
    (((Swap.planSwapsAux timeExit z uw ub).map Prod.snd).Nodup) ∧
    (∀ x ∈ (Swap.planSwapsAux timeExit z uw ub).map Prod.snd, x ∉ ub) := by
  intro z
  induction z with
  | nil =>
    intro uw ub
    constructor
    · simp [Swap.planSwapsAux]
    · simp [Swap.planSwapsAux]
  | cons q rest ih =>
    intro uw ub
    obtain ⟨⟨w, ws⟩, b, bs⟩ := q
    rw [Swap.planSwapsAux]
    split
    · exact ih uw ub
    · split
      · exact ih uw ub
      · split
        · exact ih uw ub
        · split
          · exact ih uw ub
          · rename_i hbub _
            have htail := ih (uw ++ [w.symbol]) (ub ++ [b])
            constructor
            · rw [List.map_cons, List.nodup_cons]
              refine ⟨?_, htail.1⟩
              intro hmem
              exact htail.2 _ hmem (List.mem_append_right _ (by simp))
            · intro x hx
              rw [List.map_cons] at hx
              rcases List.mem_cons.mp hx with rfl | h
              · exact hbub
              · intro hxub
                exact htail.2 x h (List.mem_append_left _ hxub)

/-- Every chosen pair is an aligned entry of the zipped input. -/
theorem planSwapsAux_mem (timeExit : List String) :
    ∀ (z : List ((Swap.Position × ℚ) × (String × ℚ))) (uw ub : List String)
    (pr : Swap.Position × String),
    pr ∈ Swap.planSwapsAux timeExit z uw ub →
    ∃ q ∈ z, pr = (q.1.1, q.2.1) := by
  intro z
  induction z with
  | nil =>
    intro uw ub pr hpr
    simp [Swap.planSwapsAux] at hpr
  | cons q rest ih =>
    intro uw ub pr hpr
    obtain ⟨⟨w, ws⟩, b, bs⟩ := q
    rw [Swap.planSwapsAux] at hpr
    split at hpr
    · obtain ⟨q2, hq2, heq⟩ := ih _ _ _ hpr
      exact ⟨q2, List.mem_cons_of_mem _ hq2, heq⟩
    · split at hpr
      · obtain ⟨q2, hq2, heq⟩ := ih _ _ _ hpr
        exact ⟨q2, List.mem_cons_of_mem _ hq2, heq⟩
      · split at hpr
        · obtain ⟨q2, hq2, heq⟩ := ih _ _ _ hpr
          exact ⟨q2, List.mem_cons_of_mem _ hq2, heq⟩
        · split at hpr
          · obtain ⟨q2, hq2, heq⟩ := ih _ _ _ hpr
            exact ⟨q2, List.mem_cons_of_mem _ hq2, heq⟩
          · rcases List.mem_cons.mp hpr with rfl | h
            · exact ⟨((w, ws), b, bs), List.mem_cons_self _ _, rfl⟩
            · obtain ⟨q2, hq2, heq⟩ := ih _ _ _ h
              exact ⟨q2, List.mem_cons_of_mem _ hq2, heq⟩

/-- Swap candidates never carry a held symbol. -/
theorem bestCandidates_not_held (day : DayData) (held : List String) :
    ∀ x ∈ Swap.bestCandidates day held, x.1 ∉ held := by
  intro x hx
  obtain ⟨a, _, ha⟩ := List.mem_filterMap.mp hx
  by_cases hmem : a.1 ∈ held
  · simp [hmem] at ha
  · simp only [hmem, if_neg, if_false, Option.some.injEq, not_false_iff,
      ite_false] at ha
    cases ha
    exact hmem

/-- The stop-loss scan only removes positions; surviving symbols are a
sublist of the original symbols. -/
theorem stopScan_sym_sublist (dt : ℕ) (day : DayData) :
    ∀ (ps : List Swap.Position),
    ((Swap.stopScan dt day ps).1.map Swap.Position.symbol).Sublist
      (ps.map Swap.Position.symbol) := by
  intro ps
  induction ps with
  | nil => simp [Swap.stopScan]
  | cons p rest ih =>
    cases hLook : day.lookup p.symbol with
    | none =>
      simp only [Swap.stopScan, hLook, List.map_cons]
      exact List.Sublist.cons₂ _ ih
    | some bar =>
      cases hStop : Swap.compute_stop_loss p.entryPrice bar with
      | none =>
        simp only [Swap.stopScan, hLook, hStop, List.map_cons]
        exact List.Sublist.cons₂ _ ih
      | some exit_raw =>
        simp only [Swap.stopScan, hLook, hStop, List.map_cons]
        exact List.Sublist.cons _ ih

/-- Every scheduled order is dated for the next trading day. -/
theorem schedule_target (next : ℕ) (day : DayData) (cash : ℚ)
    (port : List Swap.Position) :
    ∀ o ∈ Swap.schedule next day cash port, o.target = next := by
  intro o ho
  simp only [Swap.schedule] at ho
  rcases List.mem_append.mp ho with h | h
  · rcases List.mem_append.mp h with h2 | h2
    · obtain ⟨sym, _, heq⟩ := List.mem_map.mp h2
      cases heq
      rfl
    · obtain ⟨pr, _, heq⟩ := List.mem_map.mp h2
      cases heq
      rfl
  · unfold Swap.entryOrders at h
    split at h
    · simp at h
    · obtain ⟨sym, _, heq⟩ := List.mem_map.mp h
      cases heq
      rfl

/-- A filter that accepts everything a map produces keeps the map. -/
theorem map_filter_all {α : Type} (p : Swap.Order → Bool) (f : α → Swap.Order)
    (l : List α) (h : ∀ a, p (f a) = true) : (l.map f).filter p = l.map f := by
  rw [List.filter_eq_self]
  intro o ho
  obtain ⟨a, _, rfl⟩ := List.mem_map.mp ho
  exact h a

/-- A filter that rejects everything a map produces yields `[]`. -/
theorem map_filter_none {α : Type} (p : Swap.Order → Bool) (f : α → Swap.Order)
    (l : List α) (h : ∀ a, p (f a) = false) : (l.map f).filter p = [] := by
  rw [List.filter_eq_nil_iff]
  intro o ho
  obtain ⟨a, _, rfl⟩ := List.mem_map.mp ho
  simp [h a]

/-- The BUY orders among a day's scheduled orders are exactly the swap
BUYs followed by the entry BUYs; SELL orders are filtered out. -/
theorem buys_of_parts (next : ℕ) (day : DayData) (timeExit sells : List String)
    (pairs : List (Swap.Position × String)) (cash : ℚ) (blocked : List String)
    (slots : ℕ) :
    (((Swap.sellOrders next timeExit sells ++ Swap.swapBuyOrders next day pairs ++
        Swap.entryOrders next cash day blocked slots).filter (fun o =>
        decide (o.side = Swap.Side.buy ∧ o.target = next))).map
        Swap.Order.symbol) =
      pairs.map Prod.snd ++
        (if slots = 0 then [] else
          ((((Swap.day_sorted day).map Prod.fst).filter (fun sym =>
            decide (sym ∉ blocked))).take slots)) := by
  unfold Swap.sellOrders Swap.swapBuyOrders Swap.entryOrders
  by_cases hz : slots = 0
  · rw [if_pos hz, if_pos hz]
    rw [List.filter_append, List.filter_append,
      map_filter_none _ _ _ (fun a => by simp),
      map_filter_all _ _ _ (fun a => by simp)]
    simp only [List.filter_nil, List.nil_append, List.append_nil, List.map_map]
    rfl
  · rw [if_neg hz, if_neg hz]
    rw [List.filter_append, List.filter_append,
      map_filter_none _ _ _ (fun a => by simp),
      map_filter_all _ _ _ (fun a => by simp),
      map_filter_all _ _ _ (fun a => by simp)]
    simp only [List.nil_append, List.map_append, List.map_map]
    congr 1
    have hid : (Swap.Order.symbol ∘ fun sym =>
        ({ side := Swap.Side.buy, symbol := sym, target := next,
           capital := cash / (slots : ℚ), reason := "ENTRY" } : Swap.Order)) = id := rfl
    rw [hid, List.map_id]

/-- The BUY orders scheduled for the next day carry duplicate-free
symbols, none of which is currently held. -/
theorem schedule_buy_inv (next : ℕ) (day : DayData) (cash : ℚ)
    (port : List Swap.Position) (hdaynodup : (day.map Prod.fst).Nodup) :
    ((((Swap.schedule next day cash port).filter (fun o =>
        decide (o.side = Swap.Side.buy ∧ o.target = next))).map
        Swap.Order.symbol).Nodup) ∧
    (∀ s ∈ ((Swap.schedule next day cash port).filter (fun o =>
        decide (o.side = Swap.Side.buy ∧ o.target = next))).map
        Swap.Order.symbol, s ∉ port.map Swap.Position.symbol) := by
  have hparts := buys_of_parts next day (Swap.timeExitSyms port)
    (Swap.addSwapSells
      (Swap.planSwaps (Swap.timeExitSyms port) (Swap.posScores day port)
        (Swap.bestCandidates day (port.map Swap.Position.symbol)))
      (Swap.timeExitSyms port))
    (Swap.planSwaps (Swap.timeExitSyms port) (Swap.posScores day port)
      (Swap.bestCandidates day (port.map Swap.Position.symbol)))
    cash
    (port.map Swap.Position.symbol ++
      (Swap.planSwaps (Swap.timeExitSyms port) (Swap.posScores day port)
        (Swap.bestCandidates day (port.map Swap.Position.symbol))).map Prod.snd)
    (Swap.freeSlots port (Swap.timeExitSyms port))
  have hpairs_nodup : ((Swap.planSwaps (Swap.timeExitSyms port)
      (Swap.posScores day port)
      (Swap.bestCandidates day (port.map Swap.Position.symbol))).map
      Prod.snd).Nodup := by
    rw [Swap.planSwaps]
    exact (planSwapsAux_snd_nodup _ _ [] []).1
  have hpairs_not_held : ∀ s ∈ (Swap.planSwaps (Swap.timeExitSyms port)
      (Swap.posScores day port)
      (Swap.bestCandidates day (port.map Swap.Position.symbol))).map Prod.snd,
      s ∉ port.map Swap.Position.symbol := by
    intro s hs
    obtain ⟨pr, hpr, rfl⟩ := List.mem_map.mp hs
    rw [Swap.planSwaps] at hpr
    obtain ⟨q, hq, rfl⟩ := planSwapsAux_mem _ _ _ _ _ hpr
    have hqz := List.take_subset _ _ hq
    have hbest : q.2 ∈ Swap.bestCandidates day (port.map Swap.Position.symbol) :=
      (List.of_mem_zip (by simpa using hqz)).2
    exact bestCandidates_not_held day _ _ hbest
  have hextra_nodup : ((((Swap.day_sorted day).map Prod.fst).filter (fun sym =>
      decide (sym ∉ (port.map Swap.Position.symbol ++
        (Swap.planSwaps (Swap.timeExitSyms port) (Swap.posScores day port)
          (Swap.bestCandidates day
            (port.map Swap.Position.symbol))).map Prod.snd)))).take
      (Swap.freeSlots port (Swap.timeExitSyms port))).Nodup := by
    have hsorted : ((Swap.day_sorted day).map Prod.fst).Nodup := by
      have hperm := (List.perm_insertionSort
        (fun a b : String × Bar => b.2.score ≤ a.2.score) day).map Prod.fst
      exact hperm.symm.nodup hdaynodup
    exact ((hsorted.filter _).sublist (List.take_sublist _ _))
  simp only [Swap.schedule]
  rw [hparts]
  constructor
  · apply List.Nodup.append hpairs_nodup
    · split
      · exact List.nodup_nil
      · exact hextra_nodup
    · intro a ha hmem
      split at hmem
      · simp at hmem
      · have hfil := List.mem_of_mem_take hmem
        have hdec := List.of_mem_filter hfil
        have hnb : a ∉ (port.map Swap.Position.symbol ++
            (Swap.planSwaps (Swap.timeExitSyms port) (Swap.posScores day port)
              (Swap.bestCandidates day
                (port.map Swap.Position.symbol))).map Prod.snd) :=
          of_decide_eq_true hdec
        exact hnb (List.mem_append_right _ ha)
  · intro s hs
    rcases List.mem_append.mp hs with h | h
    · exact hpairs_not_held s h
    · split at h
      · simp at h
      · have hfil := List.mem_of_mem_take h
        have hdec := List.of_mem_filter hfil
        have hnb := of_decide_eq_true hdec
        intro hmem
        exact hnb (List.mem_append_left _ hmem)

/-- The pending-order pass preserves duplicate-free portfolio symbols,
given that today's BUY orders have duplicate-free symbols not already
held; stale orders stay stale. -/
theorem execOrders_sym_inv (k : ℕ) (day : DayData) :
    ∀ (L : List Swap.Order) (e : Swap.ExecSt),
    (e.portfolio.map Swap.Position.symbol).Nodup →
    (∀ o ∈ L, o.side = Swap.Side.buy → o.target = k →
      o.symbol ∉ e.portfolio.map Swap.Position.symbol) →
    (((L.filter (fun o => decide (o.side = Swap.Side.buy ∧ o.target = k))).map
      Swap.Order.symbol).Nodup) →
    (∀ o ∈ L, o.target ≤ k) →
    (∀ o ∈ e.newPending, o.target ≤ k) →
    (((Swap.execOrders k day L e).portfolio.map Swap.Position.symbol).Nodup) ∧
    (∀ o ∈ (Swap.execOrders k day L e).newPending, o.target ≤ k) := by
  intro L
  induction L with
  | nil =>
    intro e h1 _ _ _ h5
    exact ⟨h1, h5⟩
  | cons o rest ih =>
    intro e h1 h2 h3 h4 h5
    rw [Swap.execOrders]
    have hf3 : ((rest.filter (fun o =>
        decide (o.side = Swap.Side.buy ∧ o.target = k))).map
        Swap.Order.symbol).Nodup := by
      by_cases hbt : o.side = Swap.Side.buy ∧ o.target = k
      · rw [show (o :: rest).filter (fun o =>
            decide (o.side = Swap.Side.buy ∧ o.target = k)) =
            o :: rest.filter (fun o =>
              decide (o.side = Swap.Side.buy ∧ o.target = k)) by
            simp [List.filter_cons, hbt.1, hbt.2], List.map_cons] at h3
        exact (List.nodup_cons.mp h3).2
      · rwa [show (o :: rest).filter (fun o =>
            decide (o.side = Swap.Side.buy ∧ o.target = k)) =
            rest.filter (fun o =>
              decide (o.side = Swap.Side.buy ∧ o.target = k)) by
            simp [List.filter_cons, hbt]] at h3
    have hfhead : o.side = Swap.Side.buy → o.target = k →
        o.symbol ∉ (rest.filter (fun o =>
          decide (o.side = Swap.Side.buy ∧ o.target = k))).map
          Swap.Order.symbol := by
      intro hs htg
      rw [show (o :: rest).filter (fun o =>
          decide (o.side = Swap.Side.buy ∧ o.target = k)) =
          o :: rest.filter (fun o =>
            decide (o.side = Swap.Side.buy ∧ o.target = k)) by
          simp [List.filter_cons, hs, htg], List.map_cons] at h3
      exact (List.nodup_cons.mp h3).1
    have h2tail := fun o' ho' => h2 o' (List.mem_cons_of_mem _ ho')
    have h4tail := fun o' ho' => h4 o' (List.mem_cons_of_mem _ ho')
    by_cases ht : o.target ≠ k
    · have hport : (Swap.execOrder k day e o).portfolio = e.portfolio := by
        simp only [Swap.execOrder, if_pos ht]
      have hpend : (Swap.execOrder k day e o).newPending =
          e.newPending ++ [o] := by
        simp only [Swap.execOrder, if_pos ht]
      refine ih _ (by rw [hport]; exact h1)
        (fun o' ho' hs htg => by rw [hport]; exact h2tail o' ho' hs htg)
        hf3 h4tail ?_
      rw [hpend]
      intro o' ho'
      rcases List.mem_append.mp ho' with h | h
      · exact h5 o' h
      · rcases List.mem_singleton.mp h with rfl
        exact h4 o' (List.mem_cons_self _ _)
    · have htk : o.target = k := not_ne_iff.mp ht
      cases hLook : day.lookup o.symbol with
      | none =>
        have hport : (Swap.execOrder k day e o).portfolio = e.portfolio := by
          simp only [Swap.execOrder, if_neg ht, hLook]
        have hpend : (Swap.execOrder k day e o).newPending =
            e.newPending ++ [o] := by
          simp only [Swap.execOrder, if_neg ht, hLook]
        refine ih _ (by rw [hport]; exact h1)
          (fun o' ho' hs htg => by rw [hport]; exact h2tail o' ho' hs htg)
          hf3 h4tail ?_
        rw [hpend]
        intro o' ho'
        rcases List.mem_append.mp ho' with h | h
        · exact h5 o' h
        · rcases List.mem_singleton.mp h with rfl
          exact h4 o' (List.mem_cons_self _ _)
      | some bar =>
        cases hSide : o.side with
        | sell =>
          cases hPos : Swap.findPos e.portfolio o.symbol with
          | none =>
            have heq : Swap.execOrder k day e o = e := by
              simp only [Swap.execOrder, if_neg ht, hLook, hSide, hPos]
            rw [heq]
            exact ih _ h1 h2tail hf3 h4tail h5
          | some pos =>
            have hport : (Swap.execOrder k day e o).portfolio =
                Swap.removePos e.portfolio o.symbol := by
              simp only [Swap.execOrder, if_neg ht, hLook, hSide, hPos]
            have hpend : (Swap.execOrder k day e o).newPending =
                e.newPending := by
              simp only [Swap.execOrder, if_neg ht, hLook, hSide, hPos]
            have hsub := List.Sublist.map Swap.Position.symbol
              (removePos_sublist o.symbol e.portfolio)
            refine ih _ (by rw [hport]; exact h1.sublist hsub)
              (fun o' ho' hs htg => by
                rw [hport]
                intro hmem
                exact h2tail o' ho' hs htg (hsub.subset hmem))
              hf3 h4tail (by rw [hpend]; exact h5)
        | buy =>
          by_cases hsh :
              (pyInt (o.capital / (bar.op * (1 + Swap.SLIPPAGE_BUY)))).toNat = 0
          · have heq : Swap.execOrder k day e o = e := by
              simp only [Swap.execOrder, if_neg ht, hLook, hSide, if_pos hsh]
            rw [heq]
            exact ih _ h1 h2tail hf3 h4tail h5
          · by_cases hcash : e.cash <
                ((pyInt (o.capital / (bar.op * (1 + Swap.SLIPPAGE_BUY)))).toNat : ℚ) *
                  (bar.op * (1 + Swap.SLIPPAGE_BUY)) * (1 + Swap.COMMISSION)
            · have heq : Swap.execOrder k day e o = e := by
                simp only [Swap.execOrder, if_neg ht, hLook, hSide, if_neg hsh,
                  if_pos hcash]
              rw [heq]
              exact ih _ h1 h2tail hf3 h4tail h5
            · have hnew : o.symbol ∉ e.portfolio.map Swap.Position.symbol :=
                h2 o (List.mem_cons_self _ _) hSide htk
              have hport : (Swap.execOrder k day e o).portfolio =
                  e.portfolio ++
                    [{ symbol := o.symbol, entryDate := k,
                       entryPrice := bar.op * (1 + Swap.SLIPPAGE_BUY),
                       shares := (pyInt (o.capital /
                         (bar.op * (1 + Swap.SLIPPAGE_BUY)))).toNat,
                       daysHeld := 0 }] := by
                simp only [Swap.execOrder, if_neg ht, hLook, hSide, if_neg hsh,
                  if_neg hcash]
              have hpend : (Swap.execOrder k day e o).newPending =
                  e.newPending := by
                simp only [Swap.execOrder, if_neg ht, hLook, hSide, if_neg hsh,
                  if_neg hcash]
              refine ih _ ?_ ?_ hf3 h4tail (by rw [hpend]; exact h5)
              · rw [hport, List.map_append]
                apply List.Nodup.append h1 (by simp)
                intro a ha hb
                rcases List.mem_singleton.mp (by simpa using hb) with rfl
                exact hnew ha
              · intro o' ho' hs htg
                rw [hport, List.map_append]
                intro hmem
                rcases List.mem_append.mp hmem with h | h
                · exact h2tail o' ho' hs htg h
                · have heqsym : o'.symbol = o.symbol := by simpa using h
                  have hmemf : o' ∈ rest.filter (fun o =>
                      decide (o.side = Swap.Side.buy ∧ o.target = k)) :=
                    List.mem_filter.mpr ⟨ho', decide_eq_true ⟨hs, htg⟩⟩
                  exact hfhead hSide htk
                    (heqsym ▸ List.mem_map_of_mem Swap.Order.symbol hmemf)

/-- One simulated day preserves the symbol invariant: the portfolio has
duplicate-free symbols, and tomorrow's BUY orders (the only ones that
can still fill) have duplicate-free symbols not currently held. -/
theorem dayStep_sym_inv (k : ℕ) (next : Option ℕ) (day : DayData)
    (s : Swap.State) (hdaynodup : (day.map Prod.fst).Nodup)
    (hnext : next = none ∨ next = some (k + 1))
    (h1 : (s.portfolio.map Swap.Position.symbol).Nodup)
    (h2 : ∀ o ∈ s.pending, o.target ≤ k)
    (h3 : ((s.pending.filter (fun o =>
      decide (o.side = Swap.Side.buy ∧ o.target = k))).map
      Swap.Order.symbol).Nodup)
    (h4 : ∀ o ∈ s.pending, o.side = Swap.Side.buy → o.target = k →
      o.symbol ∉ s.portfolio.map Swap.Position.symbol) :
    (((Swap.dayStep k next day s).portfolio.map Swap.Position.symbol).Nodup) ∧
    (∀ o ∈ (Swap.dayStep k next day s).pending, o.target ≤ k + 1) ∧
    ((((Swap.dayStep k next day s).pending.filter (fun o =>
      decide (o.side = Swap.Side.buy ∧ o.target = k + 1))).map
      Swap.Order.symbol).Nodup) ∧
    (∀ o ∈ (Swap.dayStep k next day s).pending,
      o.side = Swap.Side.buy → o.target = k + 1 →
      o.symbol ∉ (Swap.dayStep k next day s).portfolio.map
        Swap.Position.symbol) := by
  have hexec := execOrders_sym_inv k day s.pending
    { cash := s.cash, portfolio := s.portfolio, newPending := [],
      trades := s.trades } h1 h4 h3 h2 (by intro o ho; simp at ho)
  have hstale : ∀ o ∈ (Swap.execOrders k day s.pending
      { cash := s.cash, portfolio := s.portfolio, newPending := [],
        trades := s.trades }).newPending,
      ¬ (o.side = Swap.Side.buy ∧ o.target = k + 1) := by
    rintro o ho ⟨_, htg⟩
    have := hexec.2 o ho
    omega
  have hstale2 : ((Swap.execOrders k day s.pending
      { cash := s.cash, portfolio := s.portfolio, newPending := [],
        trades := s.trades }).newPending.filter (fun o =>
      decide (o.side = Swap.Side.buy ∧ o.target = k + 1))) = [] := by
    rw [List.filter_eq_nil_iff]
    intro o ho
    simpa using hstale o ho
  have hport2 := List.Nodup.sublist (stopScan_sym_sublist k day
    (Swap.execOrders k day s.pending
      { cash := s.cash, portfolio := s.portfolio, newPending := [],
        trades := s.trades }).portfolio) hexec.1
  rcases hnext with rfl | rfl
  · simp only [Swap.dayStep]
    refine ⟨hport2, ?_, ?_, ?_⟩
    · intro o ho
      exact Nat.le_succ_of_le (hexec.2 o ho)
    · rw [hstale2]
      simp
    · intro o ho hs htg
      exact absurd ⟨hs, htg⟩ (hstale o ho)
  · simp only [Swap.dayStep]
    have hsched := schedule_buy_inv (k + 1) day
      ((Swap.execOrders k day s.pending
        { cash := s.cash, portfolio := s.portfolio, newPending := [],
          trades := s.trades }).cash +
        (Swap.stopScan k day (Swap.execOrders k day s.pending
          { cash := s.cash, portfolio := s.portfolio, newPending := [],
            trades := s.trades }).portfolio).2.2)
      (Swap.stopScan k day (Swap.execOrders k day s.pending
        { cash := s.cash, portfolio := s.portfolio, newPending := [],
          trades := s.trades }).portfolio).1 hdaynodup
    refine ⟨hport2, ?_, ?_, ?_⟩
    · intro o ho
      rcases List.mem_append.mp ho with h | h
      · exact Nat.le_succ_of_le (hexec.2 o h)
      · exact le_of_eq (schedule_target _ _ _ _ o h)
    · rw [List.filter_append, hstale2, List.nil_append]
      exact hsched.1
    · intro o ho hs htg
      rcases List.mem_append.mp ho with h | h
      · exact absurd ⟨hs, htg⟩ (hstale o h)
      · have hmemf : o ∈ (Swap.schedule (k + 1) day _ _).filter (fun o =>
            decide (o.side = Swap.Side.buy ∧ o.target = k + 1)) :=
          List.mem_filter.mpr ⟨h, decide_eq_true ⟨hs, htg⟩⟩
        exact hsched.2 o.symbol (List.mem_map_of_mem Swap.Order.symbol hmemf)

/-- The day fold preserves the symbol invariant. -/
theorem runAux_sym_inv :
    ∀ (days : List DayData) (k : ℕ) (s : Swap.State),
    (∀ day ∈ days, (day.map Prod.fst).Nodup) →
    (s.portfolio.map Swap.Position.symbol).Nodup →
    (∀ o ∈ s.pending, o.target ≤ k) →
    (((s.pending.filter (fun o =>
      decide (o.side = Swap.Side.buy ∧ o.target = k))).map
      Swap.Order.symbol).Nodup) →
    (∀ o ∈ s.pending, o.side = Swap.Side.buy → o.target = k →
      o.symbol ∉ s.portfolio.map Swap.Position.symbol) →
    ((Swap.runAux k days s).portfolio.map Swap.Position.symbol).Nodup := by
  intro days
  induction days with
  | nil =>
    intro k s _ h1 _ _ _
    exact h1
  | cons day rest ih =>
    intro k s hday h1 h2 h3 h4
    have hstep := dayStep_sym_inv k
      (if rest.isEmpty then none else some (k + 1)) day s
      (hday day (List.mem_cons_self _ _))
      (by split <;> simp) h1 h2 h3 h4
    exact ih (k + 1) _ (fun d hd => hday d (List.mem_cons_of_mem _ hd))
      hstep.1 hstep.2.1 hstep.2.2.1 hstep.2.2.2

/-- Claim C6: whenever every day's table has duplicate-free symbols, at
every point of the simulation each symbol has at most one open position
— after any run the portfolio's symbols are duplicate-free (the state
after day `n` of a longer run is the final state of the run over the
first `n` days, so this covers every intermediate day as well). -/
theorem C6_unique_symbol (days : List DayData)
    (hday : ∀ day ∈ days, (day.map Prod.fst).Nodup) :
    ((Swap.run days).portfolio.map Swap.Position.symbol).Nodup := by
  apply runAux_sym_inv days 0 Swap.initState hday <;> simp [Swap.initState]

section RatEval9

attribute [local semireducible] Rat.add Rat.mul Rat.sub Rat.inv

/-- Witness for C6: the six-position scenario still has six distinct
symbols. -/
theorem C6_witness :
    ((Swap.run Swap.c3days).portfolio.map Swap.Position.symbol).Nodup :=
  C6_unique_symbol Swap.c3days (by decide)

end RatEval9
